import Mathlib

/-!
Shallow embedding of the `simple_dao` ink! contract (src/lib.rs) and proofs
about its proposal lifecycle, vote tallying and token ledger.

Modelling conventions:
* `H160` account identifiers are opaque comparable ids, modelled as `Nat`.
* `Balance` (`u128`) and block numbers (`u64`/`u32`) are modelled as `Nat`.
  The contract is built with checked arithmetic (the ink! default), so an
  arithmetic overflow traps and reverts without committing state; a trap
  never produces a reachable state, hence plain `Nat` arithmetic is the
  faithful model of every committed execution.
* `ink::storage::Mapping` is modelled as an association list with
  `mapInsert` (replace-or-append) and `mapGet` (first-match lookup).
* The ambient execution context (`env().caller()`, `env().block_number()`)
  is passed explicitly as the `caller` and `now` parameters.
* Rust `Result<T, Error>` is `Except Error T`; messages that may mutate
  state even on error (the lazy-expiry path of `vote`) return the updated
  state paired with the result.
-/

namespace SimpleDao

/-- Account identity (`H160` in the source): an opaque comparable id. -/
abbrev H160 := Nat

/-- Token amount (`Balance`, `u128` in the source). -/
abbrev Balance := Nat

inductive ProposalType where
  | MultipleChoice
  | MoneyRequest
  deriving DecidableEq, Repr

inductive ProposalStatus where
  | Active
  | Passed
  | Rejected
  | Expired
  deriving DecidableEq, Repr

inductive Error where
  | NotMember
  | ProposalNotFound
  | ProposalExpired
  | AlreadyVoted
  | InvalidOption
  | InvalidProposalType
  | InsufficientBalance
  | EmptyMembers
  | InvalidVotingPeriod
  deriving DecidableEq, Repr

structure Proposal where
  id : Nat
  name : String
  description : String
  author : H160
  proposal_type : ProposalType
  options : List String
  amount : Option Balance
  votes : List Nat
  voted_members : List H160
  status : ProposalStatus
  created_at : Nat
  voting_deadline : Nat
  deriving DecidableEq, Repr

/-- `ink::storage::Mapping` lookup: value at the first matching key. -/
def mapGet {α : Type} (m : List (Nat × α)) (k : Nat) : Option α :=
  match m with
  | [] => none
  | (k', v) :: rest => if k' = k then some v else mapGet rest k

/-- `ink::storage::Mapping` insert: replace the first binding of `k`,
or append a fresh binding. -/
def mapInsert {α : Type} (m : List (Nat × α)) (k : Nat) (v : α) : List (Nat × α) :=
  match m with
  | [] => [(k, v)]
  | (k', v') :: rest =>
      if k' = k then (k, v) :: rest else (k', v') :: mapInsert rest k v

/-- Contract storage (`SimpleDao` struct in the source). -/
structure DaoState where
  members : List H160
  member_tokens : List (H160 × Balance)
  total_supply : Balance
  proposals : List (Nat × Proposal)
  next_proposal_id : Nat
  voting_period : Nat
  min_votes_required : Nat
  deriving DecidableEq, Repr

/-- Constructor `new`.  The two `assert!` guards abort construction, which we
model as `none`. -/
def new (members : List H160) (total_supply : Balance)
    (voting_period : Nat) (min_votes_required : Nat) : Option DaoState :=
  if members.length = 0 ∨ voting_period = 0 then none
  else
    let tokens_per_member := total_supply / members.length
    some
      { members := members
        member_tokens :=
          members.foldl (fun m mem => mapInsert m mem tokens_per_member) []
        total_supply := total_supply
        proposals := []
        next_proposal_id := 1
        voting_period := voting_period
        min_votes_required := min_votes_required }

/-- Message `distribute_tokens`. -/
def distribute_tokens (st : DaoState) (recipient : H160) (amount : Balance) :
    DaoState × Except Error Unit :=
  if recipient ∈ st.members then
    let current_balance := (mapGet st.member_tokens recipient).getD 0
    ({ st with
        member_tokens := mapInsert st.member_tokens recipient (current_balance + amount)
        total_supply := st.total_supply + amount },
      .ok ())
  else (st, .error .NotMember)

/-- Message `create_proposal` (`now` is `env().block_number()`). -/
def create_proposal (st : DaoState) (caller : H160) (name description : String)
    (proposal_type : ProposalType) (options : List String)
    (amount : Option Balance) (now : Nat) : DaoState × Except Error Nat :=
  let invalid :=
    match proposal_type with
    | .MultipleChoice => options.isEmpty
    | .MoneyRequest => amount.isNone || options.length ≠ 1
  if invalid then (st, .error .InvalidProposalType)
  else
    let proposal_id := st.next_proposal_id
    let proposal : Proposal :=
      { id := proposal_id
        name := name
        description := description
        author := caller
        proposal_type := proposal_type
        options := options
        amount := amount
        votes := List.replicate options.length 0
        voted_members := []
        status := .Active
        created_at := now
        voting_deadline := now + st.voting_period }
    ({ st with
        proposals := mapInsert st.proposals proposal_id proposal
        next_proposal_id := proposal_id + 1 },
      .ok proposal_id)

/-- `update_proposal_status`: the Outcome Evaluator.  `iter().max().unwrap_or(&0)`
is `foldr max 0`; `votes[0]` is `headD 0` (the Rust index is in bounds on every
reachable proposal, where a MoneyRequest has exactly one option). -/
def update_proposal_status (st : DaoState) (proposal : Proposal) : Proposal :=
  let total_votes := proposal.votes.sum
  if st.min_votes_required ≤ total_votes then
    match proposal.proposal_type with
    | .MultipleChoice =>
        let max_votes := proposal.votes.foldr max 0
        if total_votes / 2 < max_votes then { proposal with status := .Passed }
        else proposal
    | .MoneyRequest =>
        if total_votes / 2 < proposal.votes.headD 0 then
          { proposal with status := .Passed }
        else { proposal with status := .Rejected }
  else proposal

/-- Message `vote` (`now` is `env().block_number()`).  The returned state is
the post-call storage: unchanged on every error except the lazy-expiry path,
which persists the `Expired` transition before failing. -/
def vote (st : DaoState) (caller : H160) (proposal_id : Nat) (option : Nat)
    (now : Nat) : DaoState × Except Error Unit :=
  if caller ∈ st.members then
    match mapGet st.proposals proposal_id with
    | none => (st, .error .ProposalNotFound)
    | some proposal =>
        if caller ∈ proposal.voted_members then (st, .error .AlreadyVoted)
        else if proposal.status ≠ .Active then (st, .error .ProposalExpired)
        else if proposal.voting_deadline < now then
          ({ st with
              proposals := mapInsert st.proposals proposal_id
                { proposal with status := .Expired } },
            .error .ProposalExpired)
        else if proposal.options.length ≤ option then (st, .error .InvalidOption)
        else
          let voted : Proposal :=
            { proposal with
                votes := proposal.votes.set option (proposal.votes.getD option 0 + 1)
                voted_members := proposal.voted_members ++ [caller] }
          let updated := update_proposal_status st voted
          ({ st with proposals := mapInsert st.proposals proposal_id updated },
            .ok ())
  else (st, .error .NotMember)

/-- Message `get_proposal` (read-only: `&self`, hence no state output). -/
def get_proposal (st : DaoState) (proposal_id : Nat) (now : Nat) :
    Except Error Proposal :=
  match mapGet st.proposals proposal_id with
  | none => .error .ProposalNotFound
  | some proposal =>
      if proposal.status = .Active ∧ proposal.voting_deadline < now then
        .ok { proposal with status := .Expired }
      else .ok proposal

/-- Message `get_member_balance`. -/
def get_member_balance (st : DaoState) (member : H160) : Balance :=
  (mapGet st.member_tokens member).getD 0

/-- Sum of all ledger entries. -/
def sumBalances (m : List (H160 × Balance)) : Nat :=
  (m.map Prod.snd).sum

/-! ### Well-formedness invariant and reachable states -/

/-- Invariants of a stored proposal (relative to the membership list). -/
structure ProposalWF (members : List H160) (p : Proposal) : Prop where
  votes_len : p.votes.length = p.options.length
  voters_nodup : p.voted_members.Nodup
  voters_members : ∀ v ∈ p.voted_members, v ∈ members
  tally : p.votes.sum = p.voted_members.length
  money_single : p.proposal_type = ProposalType.MoneyRequest → p.options.length = 1
  no_reject : p.status ≠ ProposalStatus.Rejected

/-- Invariants of the whole contract storage. -/
structure DaoWF (st : DaoState) : Prop where
  prop_wf : ∀ id p, mapGet st.proposals id = some p →
    ProposalWF st.members p ∧ p.id = id ∧ 1 ≤ id ∧ id < st.next_proposal_id
  next_pos : 1 ≤ st.next_proposal_id
  bal_le : sumBalances st.member_tokens ≤ st.total_supply

/-- States reachable from construction through the contract's messages
(each message invoked with arbitrary caller and clock inputs). -/
inductive Reachable : DaoState → Prop where
  | init (members : List H160) (ts vp mv : Nat) (st : DaoState) :
      new members ts vp mv = some st → Reachable st
  | distribute (st : DaoState) (r a : Nat) :
      Reachable st → Reachable (distribute_tokens st r a).1
  | create (st : DaoState) (c : H160) (n d : String) (ty : ProposalType)
      (o : List String) (a : Option Balance) (now : Nat) :
      Reachable st → Reachable (create_proposal st c n d ty o a now).1
  | voteStep (st : DaoState) (c : H160) (pid opt now : Nat) :
      Reachable st → Reachable (vote st c pid opt now).1

/-! ### Concrete states and proposals used to instantiate the theorems -/

/-- The empty string (used for proposal names and descriptions). -/
def emptyName : String := ""

/-- An option label. -/
def optA : String := "A"

/-- Another option label. -/
def optB : String := "B"

/-- The state built by `new([1], 1000, 10, 1)`. -/
def stInit : DaoState :=
  { members := [1]
    member_tokens := [(1, 1000)]
    total_supply := 1000
    proposals := []
    next_proposal_id := 1
    voting_period := 10
    min_votes_required := 1 }

/-- `stInit` after member 1 creates a two-option MultipleChoice proposal at block 0. -/
def stProp : DaoState :=
  (create_proposal stInit 1 emptyName emptyName .MultipleChoice [optA, optB] none 0).1

/-- The proposal stored in `stProp`. -/
def pP : Proposal :=
  { id := 1, name := emptyName, description := emptyName, author := 1
    proposal_type := .MultipleChoice, options := [optA, optB], amount := none
    votes := [0, 0], voted_members := [], status := .Active
    created_at := 0, voting_deadline := 10 }

/-- `stProp` after member 1 votes for option 0 at block 5. -/
def stVoted : DaoState := (vote stProp 1 1 0 5).1

/-- The proposal stored in `stVoted` (one vote on option 0; passed, since
`min_votes_required = 1` and 1 > 1/2). -/
def pV : Proposal :=
  { id := 1, name := emptyName, description := emptyName, author := 1
    proposal_type := .MultipleChoice, options := [optA, optB], amount := none
    votes := [1, 0], voted_members := [1], status := .Passed
    created_at := 0, voting_deadline := 10 }

/-- A two-member state with `min_votes_required = 2`. -/
def stW : DaoState :=
  { members := [1, 2]
    member_tokens := [(1, 500), (2, 500)]
    total_supply := 1000
    proposals := []
    next_proposal_id := 1
    voting_period := 10
    min_votes_required := 2 }

/-- A MultipleChoice proposal with a 1-1 tie (`total = 2`, `max = 1`). -/
def pMCw : Proposal :=
  { id := 1, name := emptyName, description := emptyName, author := 1
    proposal_type := .MultipleChoice, options := [optA, optB], amount := none
    votes := [1, 1], voted_members := [1, 2], status := .Active
    created_at := 0, voting_deadline := 10 }

/-- A one-member state with `min_votes_required = 1`. -/
def stW1 : DaoState :=
  { members := [1]
    member_tokens := [(1, 1000)]
    total_supply := 1000
    proposals := []
    next_proposal_id := 1
    voting_period := 10
    min_votes_required := 1 }

/-- A MoneyRequest proposal carrying a single approving vote. -/
def pMRw : Proposal :=
  { id := 1, name := emptyName, description := emptyName, author := 1
    proposal_type := .MoneyRequest, options := [optA], amount := some 500
    votes := [1], voted_members := [1], status := .Active
    created_at := 0, voting_deadline := 10 }

/-- The state built by `new([1, 2, 3], 1000, 10, 1)`: each member holds
`1000 / 3 = 333`, yet `total_supply` stays 1000. -/
def stC6 : DaoState :=
  { members := [1, 2, 3]
    member_tokens := [(1, 333), (2, 333), (3, 333)]
    total_supply := 1000
    proposals := []
    next_proposal_id := 1
    voting_period := 10
    min_votes_required := 1 }

end SimpleDao

namespace SimpleDao

/-! ### Association-list lemmas -/

theorem mapGet_mapInsert {α : Type} (m : List (Nat × α)) (k k' : Nat) (v : α) :
    mapGet (mapInsert m k v) k' = if k = k' then some v else mapGet m k' := by
  induction m with
  | nil =>
      by_cases h : k = k' <;> simp [mapInsert, mapGet, h]
  | cons hd tl ih =>
      obtain ⟨k₀, v₀⟩ := hd
      by_cases h0 : k₀ = k
      · subst h0
        by_cases h : k₀ = k' <;> simp [mapInsert, mapGet, h]
      · by_cases h : k₀ = k'
        · have hkk : k ≠ k' := by omega
          have hkk2 : ¬ k' = k := by omega
          simp [mapInsert, mapGet, h0, h, hkk, hkk2]
        · simp [mapInsert, mapGet, h0, h, ih]

theorem mapGet_mapInsert_self {α : Type} (m : List (Nat × α)) (k : Nat) (v : α) :
    mapGet (mapInsert m k v) k = some v := by
  simp [mapGet_mapInsert]

theorem mapGet_mapInsert_ne {α : Type} (m : List (Nat × α)) {k k' : Nat} (v : α)
    (h : k ≠ k') : mapGet (mapInsert m k v) k' = mapGet m k' := by
  simp [mapGet_mapInsert, h]

theorem sumBalances_mapInsert_le (m : List (Nat × Nat)) (k v : Nat) :
    sumBalances (mapInsert m k v) ≤ sumBalances m + v := by
  induction m with
  | nil => simp [mapInsert, sumBalances]
  | cons hd tl ih =>
      obtain ⟨k₀, v₀⟩ := hd
      by_cases h : k₀ = k
      · simp [mapInsert, h, sumBalances] at ih ⊢
        omega
      · simp [mapInsert, h, sumBalances] at ih ⊢
        omega

theorem sumBalances_mapInsert_getD (m : List (Nat × Nat)) (k a : Nat) :
    sumBalances (mapInsert m k ((mapGet m k).getD 0 + a)) = sumBalances m + a := by
  induction m with
  | nil => simp [mapInsert, mapGet, sumBalances]
  | cons hd tl ih =>
      obtain ⟨k₀, v₀⟩ := hd
      by_cases h : k₀ = k
      · subst h
        simp [mapInsert, mapGet, sumBalances]
        omega
      · simp [mapInsert, mapGet, h, sumBalances] at ih ⊢
        omega

theorem mapGet_foldl_insert_pres (q : Nat) :
    ∀ (l : List Nat) (m : List (Nat × Nat)) (x : Nat), mapGet m x = some q →
      mapGet (l.foldl (fun acc mem => mapInsert acc mem q) m) x = some q
  | [], _, _, h => h
  | a :: l, m, x, h => by
      simp only [List.foldl_cons]
      apply mapGet_foldl_insert_pres q l
      rw [mapGet_mapInsert]
      by_cases hax : a = x
      · simp [hax]
      · simp [hax, h]

theorem mapGet_foldl_insert_mem (q : Nat) :
    ∀ (l : List Nat) (m : List (Nat × Nat)) (x : Nat), x ∈ l →
      mapGet (l.foldl (fun acc mem => mapInsert acc mem q) m) x = some q
  | [], _, x, hx => absurd hx (List.not_mem_nil x)
  | a :: l, m, x, hx => by
      simp only [List.foldl_cons]
      rcases List.mem_cons.mp hx with rfl | hx'
      · exact mapGet_foldl_insert_pres q l _ x (by rw [mapGet_mapInsert]; simp)
      · exact mapGet_foldl_insert_mem q l _ x hx'

theorem sumBalances_foldl_insert_le (q : Nat) :
    ∀ (l : List Nat) (m : List (Nat × Nat)),
      sumBalances (l.foldl (fun acc mem => mapInsert acc mem q) m) ≤
        sumBalances m + l.length * q
  | [], m => by simp
  | a :: l, m => by
      simp only [List.foldl_cons, List.length_cons]
      calc sumBalances (l.foldl (fun acc mem => mapInsert acc mem q) (mapInsert m a q))
          ≤ sumBalances (mapInsert m a q) + l.length * q :=
            sumBalances_foldl_insert_le q l (mapInsert m a q)
        _ ≤ (sumBalances m + q) + l.length * q :=
            Nat.add_le_add_right (sumBalances_mapInsert_le m a q) _
        _ = sumBalances m + (l.length + 1) * q := by ring

theorem sum_set_getD_add_one :
    ∀ (l : List Nat) (i : Nat), i < l.length →
      (l.set i (l.getD i 0 + 1)).sum = l.sum + 1
  | [], i, h => absurd h (by simp)
  | x :: xs, 0, _ => by simp [List.getD]; omega
  | x :: xs, i + 1, h => by
      have ih := sum_set_getD_add_one xs i (by simpa using h)
      simp [List.getD] at ih ⊢
      omega

end SimpleDao

namespace SimpleDao

/-! ### The Outcome Evaluator only ever changes the `status` field -/

theorem update_proposal_status_eq_status (st : DaoState) (p : Proposal) :
    ∃ s, update_proposal_status st p = { p with status := s } := by
  unfold update_proposal_status
  dsimp only
  split
  · split
    · split
      · exact ⟨.Passed, rfl⟩
      · exact ⟨p.status, rfl⟩
    · split
      · exact ⟨.Passed, rfl⟩
      · exact ⟨.Rejected, rfl⟩
  · exact ⟨p.status, rfl⟩

theorem update_proposal_status_rejected (st : DaoState) (p : Proposal)
    (h : (update_proposal_status st p).status = .Rejected) :
    p.status = .Rejected ∨
      (p.proposal_type = .MoneyRequest ∧ st.min_votes_required ≤ p.votes.sum ∧
        p.votes.headD 0 ≤ p.votes.sum / 2) := by
  unfold update_proposal_status at h
  dsimp only at h
  split at h
  · rename_i hmin
    split at h
    · split at h
      · simp at h
      · exact .inl h
    · rename_i hty
      split at h
      · simp at h
      · rename_i hle
        exact .inr ⟨hty, hmin, by omega⟩
  · exact .inl h

theorem new_WF (members : List H160) (ts vp mv : Nat) (st : DaoState)
    (h : new members ts vp mv = some st) : DaoWF st := by
  unfold new at h
  split at h
  · exact absurd h (by simp)
  · simp only [Option.some.injEq] at h
    subst h
    refine ⟨?_, le_refl 1, ?_⟩
    · intro id p hp
      simp [mapGet] at hp
    · have hfold := sumBalances_foldl_insert_le (ts / members.length) members []
      have hzero : sumBalances ([] : List (Nat × Nat)) = 0 := by simp [sumBalances]
      rw [hzero, Nat.zero_add] at hfold
      calc sumBalances (members.foldl
            (fun m mem => mapInsert m mem (ts / members.length)) [])
          ≤ members.length * (ts / members.length) := hfold
        _ = ts / members.length * members.length := Nat.mul_comm _ _
        _ ≤ ts := Nat.div_mul_le_self ts members.length

theorem distribute_WF (st : DaoState) (r a : Nat) (hwf : DaoWF st) :
    DaoWF (distribute_tokens st r a).1 := by
  unfold distribute_tokens
  dsimp only
  split
  · refine ⟨hwf.prop_wf, hwf.next_pos, ?_⟩
    dsimp only
    rw [sumBalances_mapInsert_getD]
    exact Nat.add_le_add_right hwf.bal_le a
  · exact hwf

theorem create_WF (st : DaoState) (c : H160) (n d : String) (ty : ProposalType)
    (o : List String) (a : Option Balance) (now : Nat) (hwf : DaoWF st) :
    DaoWF (create_proposal st c n d ty o a now).1 := by
  unfold create_proposal
  dsimp only
  split
  · exact hwf
  · rename_i hvalid
    refine ⟨?_, Nat.le_succ_of_le hwf.next_pos, hwf.bal_le⟩
    intro id p hp
    dsimp only at hp
    rw [mapGet_mapInsert] at hp
    by_cases hid : st.next_proposal_id = id
    · rw [if_pos hid] at hp
      simp only [Option.some.injEq] at hp
      subst hp
      subst hid
      refine ⟨⟨?_, ?_, ?_, ?_, ?_, ?_⟩, rfl, hwf.next_pos, ?_⟩
      · simp
      · exact List.nodup_nil
      · intro v hv
        exact absurd hv (List.not_mem_nil v)
      · simp
      · intro hty
        cases ty with
        | MultipleChoice => cases hty
        | MoneyRequest =>
            simp only [Bool.or_eq_true, Option.isNone_iff_eq_none,
              decide_eq_true_eq] at hvalid
            push_neg at hvalid
            exact hvalid.2
      · intro hcontra
        cases hcontra
      · show st.next_proposal_id < st.next_proposal_id + 1
        exact Nat.lt_succ_self _
    · rw [if_neg hid] at hp
      obtain ⟨hpwf, hpid, h1, hlt⟩ := hwf.prop_wf id p hp
      refine ⟨hpwf, hpid, h1, ?_⟩
      show id < st.next_proposal_id + 1
      omega

end SimpleDao

namespace SimpleDao

theorem vote_WF (st : DaoState) (c : H160) (pid opt now : Nat) (hwf : DaoWF st) :
    DaoWF (vote st c pid opt now).1 := by
  unfold vote
  by_cases hmem : c ∈ st.members
  · rw [if_pos hmem]
    cases hget : mapGet st.proposals pid with
    | none => exact hwf
    | some p =>
        dsimp only
        obtain ⟨hpwf, hpid, hone, hlt⟩ := hwf.prop_wf pid p hget
        by_cases hvoted : c ∈ p.voted_members
        · rw [if_pos hvoted]; exact hwf
        · rw [if_neg hvoted]
          by_cases hstat : p.status ≠ ProposalStatus.Active
          · rw [if_pos hstat]; exact hwf
          · rw [if_neg hstat]
            push_neg at hstat
            by_cases hdl : p.voting_deadline < now
            · rw [if_pos hdl]
              refine ⟨?_, hwf.next_pos, hwf.bal_le⟩
              intro id q hq
              dsimp only at hq ⊢
              rw [mapGet_mapInsert] at hq
              by_cases hid : pid = id
              · rw [if_pos hid] at hq
                simp only [Option.some.injEq] at hq
                subst hq
                subst hid
                refine ⟨⟨hpwf.votes_len, hpwf.voters_nodup, hpwf.voters_members,
                  hpwf.tally, hpwf.money_single, ?_⟩, hpid, hone, hlt⟩
                intro hcon
                cases hcon
              · rw [if_neg hid] at hq
                exact hwf.prop_wf id q hq
            · rw [if_neg hdl]
              by_cases hopt : p.options.length ≤ opt
              · rw [if_pos hopt]; exact hwf
              · rw [if_neg hopt]
                have hoptlt : opt < p.votes.length := by
                  rw [hpwf.votes_len]; omega
                have hsum : (p.votes.set opt (p.votes.getD opt 0 + 1)).sum =
                    p.votes.sum + 1 := sum_set_getD_add_one p.votes opt hoptlt
                obtain ⟨s, hs⟩ := update_proposal_status_eq_status st
                  { p with
                      votes := p.votes.set opt (p.votes.getD opt 0 + 1)
                      voted_members := p.voted_members ++ [c] }
                refine ⟨?_, hwf.next_pos, hwf.bal_le⟩
                intro id q hq
                dsimp only at hq ⊢
                rw [mapGet_mapInsert] at hq
                by_cases hid : pid = id
                · rw [if_pos hid] at hq
                  simp only [Option.some.injEq] at hq
                  subst hq
                  subst hid
                  refine ⟨⟨?_, ?_, ?_, ?_, ?_, ?_⟩, ?_, hone, hlt⟩
                  · rw [hs]
                    show (p.votes.set opt (p.votes.getD opt 0 + 1)).length =
                      p.options.length
                    rw [List.length_set]
                    exact hpwf.votes_len
                  · rw [hs]
                    show (p.voted_members ++ [c]).Nodup
                    exact ((List.perm_append_singleton c p.voted_members).symm).nodup
                      (List.nodup_cons.mpr ⟨hvoted, hpwf.voters_nodup⟩)
                  · rw [hs]
                    intro v hv
                    rcases List.mem_append.mp hv with hv' | hv'
                    · exact hpwf.voters_members v hv'
                    · rw [List.mem_singleton.mp hv']
                      exact hmem
                  · rw [hs]
                    show (p.votes.set opt (p.votes.getD opt 0 + 1)).sum =
                      (p.voted_members ++ [c]).length
                    rw [hsum, List.length_append, hpwf.tally]
                    simp
                  · rw [hs]
                    exact hpwf.money_single
                  · intro hrej
                    rcases update_proposal_status_rejected st _ hrej with hr | ⟨hty, _, hhead⟩
                    · rw [show ({ p with
                          votes := p.votes.set opt (p.votes.getD opt 0 + 1),
                          voted_members := p.voted_members ++ [c] } : Proposal).status
                          = p.status from rfl, hstat] at hr
                      cases hr
                    · have hopt1 : p.options.length = 1 := hpwf.money_single hty
                      have hvlen : (p.votes.set opt (p.votes.getD opt 0 + 1)).length = 1 := by
                        rw [List.length_set, hpwf.votes_len, hopt1]
                      obtain ⟨k, hk⟩ := List.length_eq_one.mp hvlen
                      rw [hk] at hhead hsum
                      simp only [List.headD_cons, List.sum_cons, List.sum_nil] at hhead hsum
                      omega
                  · rw [hs]
                    exact hpid
                · rw [if_neg hid] at hq
                  exact hwf.prop_wf id q hq
  · rw [if_neg hmem]
    exact hwf

/-- Every reachable contract state satisfies the storage invariant. -/
theorem reachable_WF (st : DaoState) (h : Reachable st) : DaoWF st := by
  induction h with
  | init members ts vp mv st hnew => exact new_WF members ts vp mv st hnew
  | distribute st r a _ ih => exact distribute_WF st r a ih
  | create st c n d ty o a now _ ih => exact create_WF st c n d ty o a now ih
  | voteStep st c pid opt now _ ih => exact vote_WF st c pid opt now ih

end SimpleDao

namespace SimpleDao

/-! ### Per-path characterization of `vote` -/

theorem vote_not_member (st : DaoState) (c : H160) (pid opt now : Nat)
    (h : c ∉ st.members) : vote st c pid opt now = (st, .error .NotMember) := by
  unfold vote
  rw [if_neg h]

theorem vote_not_found (st : DaoState) (c : H160) (pid opt now : Nat)
    (hmem : c ∈ st.members) (h : mapGet st.proposals pid = none) :
    vote st c pid opt now = (st, .error .ProposalNotFound) := by
  unfold vote
  rw [if_pos hmem, h]

theorem vote_already_voted (st : DaoState) (c : H160) (pid opt now : Nat)
    (p : Proposal) (hmem : c ∈ st.members)
    (hget : mapGet st.proposals pid = some p) (hv : c ∈ p.voted_members) :
    vote st c pid opt now = (st, .error .AlreadyVoted) := by
  unfold vote
  rw [if_pos hmem, hget]
  dsimp only
  rw [if_pos hv]

theorem vote_expired_result (st : DaoState) (c : H160) (pid opt now : Nat)
    (p : Proposal) (hmem : c ∈ st.members)
    (hget : mapGet st.proposals pid = some p) (hnv : c ∉ p.voted_members)
    (h : p.status ≠ .Active ∨ p.voting_deadline < now) :
    (vote st c pid opt now).2 = .error .ProposalExpired := by
  unfold vote
  rw [if_pos hmem, hget]
  dsimp only
  rw [if_neg hnv]
  by_cases hstat : p.status ≠ ProposalStatus.Active
  · rw [if_pos hstat]
  · rw [if_neg hstat]
    push_neg at hstat
    rcases h with h | h
    · exact absurd hstat h
    · rw [if_pos h]

theorem vote_lazy_expiry (st : DaoState) (c : H160) (pid opt now : Nat)
    (p : Proposal) (hmem : c ∈ st.members)
    (hget : mapGet st.proposals pid = some p) (hnv : c ∉ p.voted_members)
    (hactive : p.status = .Active) (hdl : p.voting_deadline < now) :
    vote st c pid opt now =
      ({ st with
          proposals := mapInsert st.proposals pid
            { p with status := .Expired } },
        .error .ProposalExpired) := by
  unfold vote
  rw [if_pos hmem, hget]
  dsimp only
  rw [if_neg hnv, if_neg (by simp [hactive]), if_pos hdl]

theorem vote_invalid_option (st : DaoState) (c : H160) (pid opt now : Nat)
    (p : Proposal) (hmem : c ∈ st.members)
    (hget : mapGet st.proposals pid = some p) (hnv : c ∉ p.voted_members)
    (hactive : p.status = .Active) (hnd : now ≤ p.voting_deadline)
    (hopt : p.options.length ≤ opt) :
    vote st c pid opt now = (st, .error .InvalidOption) := by
  unfold vote
  rw [if_pos hmem, hget]
  dsimp only
  rw [if_neg hnv, if_neg (by simp [hactive]),
    if_neg (by omega : ¬ p.voting_deadline < now), if_pos hopt]

theorem vote_success (st : DaoState) (c : H160) (pid opt now : Nat)
    (p : Proposal) (hmem : c ∈ st.members)
    (hget : mapGet st.proposals pid = some p) (hnv : c ∉ p.voted_members)
    (hactive : p.status = .Active) (hnd : now ≤ p.voting_deadline)
    (hopt : opt < p.options.length) :
    vote st c pid opt now =
      ({ st with
          proposals := mapInsert st.proposals pid
            (update_proposal_status st
              { p with
                  votes := p.votes.set opt (p.votes.getD opt 0 + 1)
                  voted_members := p.voted_members ++ [c] }) },
        .ok ()) := by
  unfold vote
  rw [if_pos hmem, hget]
  dsimp only
  rw [if_neg hnv, if_neg (by simp [hactive]),
    if_neg (by omega : ¬ p.voting_deadline < now),
    if_neg (by omega : ¬ p.options.length ≤ opt)]

/-! ### Per-operation state facts -/

theorem vote_state_fields (st : DaoState) (c : H160) (pid opt now : Nat) :
    (vote st c pid opt now).1.next_proposal_id = st.next_proposal_id ∧
    (vote st c pid opt now).1.total_supply = st.total_supply ∧
    (vote st c pid opt now).1.members = st.members ∧
    (vote st c pid opt now).1.member_tokens = st.member_tokens := by
  unfold vote
  split
  · split
    · exact ⟨rfl, rfl, rfl, rfl⟩
    · split
      · exact ⟨rfl, rfl, rfl, rfl⟩
      · split
        · exact ⟨rfl, rfl, rfl, rfl⟩
        · split
          · exact ⟨rfl, rfl, rfl, rfl⟩
          · split
            · exact ⟨rfl, rfl, rfl, rfl⟩
            · exact ⟨rfl, rfl, rfl, rfl⟩
  · exact ⟨rfl, rfl, rfl, rfl⟩

theorem create_state_fields (st : DaoState) (c : H160) (n d : String)
    (ty : ProposalType) (o : List String) (a : Option Balance) (now : Nat) :
    st.next_proposal_id ≤ (create_proposal st c n d ty o a now).1.next_proposal_id ∧
    (create_proposal st c n d ty o a now).1.total_supply = st.total_supply ∧
    (create_proposal st c n d ty o a now).1.members = st.members ∧
    (create_proposal st c n d ty o a now).1.member_tokens = st.member_tokens := by
  unfold create_proposal
  dsimp only
  split
  · exact ⟨le_refl _, rfl, rfl, rfl⟩
  · exact ⟨Nat.le_succ _, rfl, rfl, rfl⟩

theorem distribute_state_fields (st : DaoState) (r a : Nat) :
    (distribute_tokens st r a).1.proposals = st.proposals ∧
    (distribute_tokens st r a).1.next_proposal_id = st.next_proposal_id ∧
    st.total_supply ≤ (distribute_tokens st r a).1.total_supply ∧
    (distribute_tokens st r a).1.members = st.members := by
  unfold distribute_tokens
  split
  · exact ⟨rfl, rfl, Nat.le_add_right _ _, rfl⟩
  · exact ⟨rfl, rfl, le_refl _, rfl⟩

theorem create_preserves_existing (st : DaoState) (c : H160) (n d : String)
    (ty : ProposalType) (o : List String) (a : Option Balance) (now id : Nat)
    (p : Proposal) (hwf : DaoWF st) (hp : mapGet st.proposals id = some p) :
    mapGet (create_proposal st c n d ty o a now).1.proposals id = some p := by
  unfold create_proposal
  dsimp only
  split
  · exact hp
  · dsimp only
    rw [mapGet_mapInsert]
    have hlt := (hwf.prop_wf id p hp).2.2.2
    rw [if_neg (by omega)]
    exact hp

theorem vote_preserves_nonactive (st : DaoState) (c : H160) (pid opt now id : Nat)
    (p p' : Proposal) (hp : mapGet st.proposals id = some p)
    (hp' : mapGet (vote st c pid opt now).1.proposals id = some p')
    (hna : p.status ≠ .Active) : p' = p := by
  unfold vote at hp'
  by_cases hmem : c ∈ st.members
  · rw [if_pos hmem] at hp'
    cases hget : mapGet st.proposals pid with
    | none =>
        rw [hget] at hp'
        dsimp only at hp'
        rw [hp] at hp'
        exact (Option.some.inj hp').symm
    | some q =>
        rw [hget] at hp'
        dsimp only at hp'
        by_cases hv : c ∈ q.voted_members
        · rw [if_pos hv] at hp'
          rw [hp] at hp'
          exact (Option.some.inj hp').symm
        · rw [if_neg hv] at hp'
          by_cases hstat : q.status ≠ ProposalStatus.Active
          · rw [if_pos hstat] at hp'
            rw [hp] at hp'
            exact (Option.some.inj hp').symm
          · rw [if_neg hstat] at hp'
            push_neg at hstat
            by_cases hid : pid = id
            · subst hid
              rw [hget] at hp
              have hqp : q = p := Option.some.inj hp
              rw [hqp] at hstat
              exact absurd hstat hna
            · by_cases hdl : q.voting_deadline < now
              · rw [if_pos hdl] at hp'
                dsimp only at hp'
                rw [mapGet_mapInsert, if_neg hid, hp] at hp'
                exact (Option.some.inj hp').symm
              · rw [if_neg hdl] at hp'
                by_cases hopt : q.options.length ≤ opt
                · rw [if_pos hopt] at hp'
                  rw [hp] at hp'
                  exact (Option.some.inj hp').symm
                · rw [if_neg hopt] at hp'
                  dsimp only at hp'
                  rw [mapGet_mapInsert, if_neg hid, hp] at hp'
                  exact (Option.some.inj hp').symm
  · rw [if_neg hmem] at hp'
    rw [hp] at hp'
    exact (Option.some.inj hp').symm

end SimpleDao

namespace SimpleDao

/-! ### Reachability of the concrete states and shared consequences -/

theorem stInit_reachable : Reachable stInit :=
  Reachable.init [1] 1000 10 1 stInit (by decide)

theorem stProp_reachable : Reachable stProp :=
  Reachable.create stInit 1 emptyName emptyName .MultipleChoice [optA, optB]
    none 0 stInit_reachable

theorem stVoted_reachable : Reachable stVoted :=
  Reachable.voteStep stProp 1 1 0 5 stProp_reachable

/-- No reachable state stores a proposal with status `Rejected`. -/
theorem reachable_no_rejected (st : DaoState) (h : Reachable st) (id : Nat)
    (p : Proposal) (hp : mapGet st.proposals id = some p) :
    p.status ≠ .Rejected :=
  ((reachable_WF st h).prop_wf id p hp).1.no_reject

/-- In a well-formed state the next proposal id is unused. -/
theorem DaoWF_fresh (st : DaoState) (hwf : DaoWF st) :
    mapGet st.proposals st.next_proposal_id = none := by
  cases hq : mapGet st.proposals st.next_proposal_id with
  | none => rfl
  | some q =>
      have hlt := (hwf.prop_wf _ q hq).2.2.2
      omega

end SimpleDao

namespace SimpleDao

/-! ### Claims -/

/-- Claim C1: for every MultipleChoice proposal, after an accepted vote the
Outcome Evaluator transitions the status to `Passed` iff
`total = sum(votes)` satisfies `min_votes_required ≤ total` and
`max(votes) > total / 2` (Nat division, strict); in every other case the
status remains `Active`, and no transition of any kind occurs while
`total < min_votes_required`. -/
theorem claim_C1 (st : DaoState) (p : Proposal)
    (hty : p.proposal_type = .MultipleChoice) (hst : p.status = .Active) :
    ((update_proposal_status st p).status = .Passed ↔
      (st.min_votes_required ≤ p.votes.sum ∧
        p.votes.sum / 2 < p.votes.foldr max 0)) ∧
    (¬ (st.min_votes_required ≤ p.votes.sum ∧
        p.votes.sum / 2 < p.votes.foldr max 0) →
      (update_proposal_status st p).status = .Active) ∧
    (p.votes.sum < st.min_votes_required → update_proposal_status st p = p) := by
  unfold update_proposal_status
  rw [hty]
  dsimp only
  by_cases hmin : st.min_votes_required ≤ p.votes.sum
  · rw [if_pos hmin]
    by_cases hmax : p.votes.sum / 2 < p.votes.foldr max 0
    · rw [if_pos hmax]
      exact ⟨⟨fun _ => ⟨hmin, hmax⟩, fun _ => rfl⟩,
        fun hcon => absurd ⟨hmin, hmax⟩ hcon,
        fun hlt => absurd hmin (by omega)⟩
    · rw [if_neg hmax]
      refine ⟨⟨fun h => ?_, fun hc => absurd hc.2 hmax⟩,
        fun _ => hst, fun hlt => absurd hmin (by omega)⟩
      rw [hst] at h
      cases h
  · rw [if_neg hmin]
    refine ⟨⟨fun h => ?_, fun hc => absurd hc.1 hmin⟩,
      fun _ => hst, fun _ => rfl⟩
    rw [hst] at h
    cases h

/-- Witness for C1 at the spec's tie example: two members, `min_votes_required = 2`,
votes `[1, 1]` (`total = 2`, `max = 1`, `1 > 2/2` is false): status stays `Active`. -/
theorem claim_C1_witness :
    pMCw.proposal_type = .MultipleChoice ∧ pMCw.status = .Active ∧
    ((update_proposal_status stW pMCw).status = .Passed ↔
      (stW.min_votes_required ≤ pMCw.votes.sum ∧
        pMCw.votes.sum / 2 < pMCw.votes.foldr max 0)) ∧
    (update_proposal_status stW pMCw).status = .Active :=
  ⟨rfl, rfl, (claim_C1 stW pMCw rfl rfl).1,
    (claim_C1 stW pMCw rfl rfl).2.1 (by decide)⟩

/-- Claim C2: for every MoneyRequest proposal, once
`min_votes_required ≤ total = sum(votes)`, the Outcome Evaluator transitions
the status to `Passed` if `votes[0] > total / 2` and otherwise to `Rejected`. -/
theorem claim_C2 (st : DaoState) (p : Proposal)
    (hty : p.proposal_type = .MoneyRequest) (hne : p.votes ≠ [])
    (hmin : st.min_votes_required ≤ p.votes.sum) :
    (update_proposal_status st p).status =
      (if p.votes.sum / 2 < p.votes.headD 0 then .Passed else .Rejected) := by
  unfold update_proposal_status
  rw [hty]
  dsimp only
  rw [if_pos hmin]
  by_cases hh : p.votes.sum / 2 < p.votes.headD 0
  · rw [if_pos hh, if_pos hh]
  · rw [if_neg hh, if_neg hh]

/-- Witness for C2 at the spec's example: `min_votes_required = 1`, a single vote
on the only option (`votes = [1]`, `total = 1`, `1 > 1/2 = 0`): status `Passed`. -/
theorem claim_C2_witness :
    pMRw.proposal_type = .MoneyRequest ∧ pMRw.votes ≠ [] ∧
    stW1.min_votes_required ≤ pMRw.votes.sum ∧
    (update_proposal_status stW1 pMRw).status = .Passed := by
  refine ⟨rfl, by decide, by decide, ?_⟩
  have h := claim_C2 stW1 pMRw rfl (by decide) (by decide)
  rw [h]
  decide

end SimpleDao

namespace SimpleDao

/-- Claim C3 counterexample: the claim asserts that `Rejected` is reachable for
MoneyRequest proposals through voting.  It is not: a MoneyRequest proposal has
exactly one option, so `votes[0] = total`, and after any accepted vote
`total ≥ 1` gives `votes[0] > total / 2`; the evaluator therefore always picks
the `Passed` branch.  No reachable state stores a Rejected MoneyRequest
proposal (derived via the reachability invariant; the first vote sequence one
would try — one MoneyRequest proposal, one approving vote, reached from
`new([1], 1000, 10, 1)` — lands in `Passed`, and so does every other). -/
theorem claim_C3_counterexample :
    ¬ ∃ st : DaoState, Reachable st ∧ ∃ id p,
      mapGet st.proposals id = some p ∧
      p.proposal_type = .MoneyRequest ∧ p.status = .Rejected := by
  rintro ⟨st, hst, id, p, hp, _, hrej⟩
  exact reachable_no_rejected st hst id p hp hrej

/-- Claim C3 (amended): `Rejected` is unreachable through voting for BOTH
proposal kinds — the MultipleChoice branch of the Outcome Evaluator never
produces `Rejected`, and the MoneyRequest branch's `Rejected` arm is dead on
reachable proposals (one option means `votes[0] = total > total / 2` after any
accepted vote); deadline expiry produces `Expired`, not `Rejected`, so no
stored proposal of a reachable state ever has status `Rejected`. -/
theorem claim_C3 (st : DaoState) (h : Reachable st) (id : Nat) (p : Proposal)
    (hp : mapGet st.proposals id = some p) : p.status ≠ .Rejected :=
  reachable_no_rejected st h id p hp

/-- Witness for C3: the reachable state `stVoted` stores proposal `pV`,
whose status (`Passed`) is not `Rejected`. -/
theorem claim_C3_witness :
    Reachable stVoted ∧ mapGet stVoted.proposals 1 = some pV ∧
    pV.status ≠ .Rejected :=
  ⟨stVoted_reachable, by decide,
    claim_C3 stVoted stVoted_reachable 1 pV (by decide)⟩

end SimpleDao

namespace SimpleDao

/-- Claim C4: `vote` performs its checks in a fixed order, returning the first
applicable error: `NotMember`, then `ProposalNotFound`, then `AlreadyVoted`
(before any expiry check, for any option index and any clock), then
`ProposalExpired` (status not Active, or deadline passed), then
`InvalidOption` (option index ≥ options.length). -/
theorem claim_C4 (st : DaoState) (c : H160) (pid opt now : Nat) :
    (c ∉ st.members → vote st c pid opt now = (st, .error .NotMember)) ∧
    (c ∈ st.members → mapGet st.proposals pid = none →
      vote st c pid opt now = (st, .error .ProposalNotFound)) ∧
    (∀ p, c ∈ st.members → mapGet st.proposals pid = some p →
      c ∈ p.voted_members →
      vote st c pid opt now = (st, .error .AlreadyVoted)) ∧
    (∀ p, c ∈ st.members → mapGet st.proposals pid = some p →
      c ∉ p.voted_members → (p.status ≠ .Active ∨ p.voting_deadline < now) →
      (vote st c pid opt now).2 = .error .ProposalExpired) ∧
    (∀ p, c ∈ st.members → mapGet st.proposals pid = some p →
      c ∉ p.voted_members → p.status = .Active → now ≤ p.voting_deadline →
      p.options.length ≤ opt →
      vote st c pid opt now = (st, .error .InvalidOption)) :=
  ⟨vote_not_member st c pid opt now,
    vote_not_found st c pid opt now,
    fun p => vote_already_voted st c pid opt now p,
    fun p => vote_expired_result st c pid opt now p,
    fun p => vote_invalid_option st c pid opt now p⟩

/-- Witness for C4: a non-member's vote fails `NotMember`, and a member who has
already voted receives `AlreadyVoted` even at clock 999 (far past the deadline
10) and for a different option index. -/
theorem claim_C4_witness :
    (4 ∉ stProp.members ∧ vote stProp 4 1 0 0 = (stProp, .error .NotMember)) ∧
    (1 ∈ stVoted.members ∧ mapGet stVoted.proposals 1 = some pV ∧
      1 ∈ pV.voted_members ∧
      vote stVoted 1 1 1 999 = (stVoted, .error .AlreadyVoted)) :=
  ⟨⟨by decide, (claim_C4 stProp 4 1 0 0).1 (by decide)⟩,
    ⟨by decide, by decide, by decide,
      (claim_C4 stVoted 1 1 1 999).2.2.1 pV (by decide) (by decide) (by decide)⟩⟩

/-- Claim C5: deadline expiry is lazy and split by operation.  A `vote` call on
a proposal with status `Active` and `now > deadline` persists `Expired` to the
store (changing nothing else: votes and voters are untouched) and fails with
`ProposalExpired`, even on the first such call; `get_proposal` on the same
state returns a view whose status reports `Expired` without mutating anything
(it is a pure read: the state is not part of its result). -/
theorem claim_C5 (st : DaoState) (c : H160) (pid opt now : Nat) (p : Proposal)
    (hmem : c ∈ st.members) (hget : mapGet st.proposals pid = some p)
    (hnv : c ∉ p.voted_members) (hactive : p.status = .Active)
    (hdl : p.voting_deadline < now) :
    vote st c pid opt now =
      ({ st with
          proposals := mapInsert st.proposals pid
            { p with status := .Expired } },
        .error .ProposalExpired) ∧
    ({ p with status := ProposalStatus.Expired } : Proposal).votes = p.votes ∧
    ({ p with status := ProposalStatus.Expired } : Proposal).voted_members =
      p.voted_members ∧
    get_proposal st pid now = .ok { p with status := .Expired } := by
  refine ⟨vote_lazy_expiry st c pid opt now p hmem hget hnv hactive hdl,
    rfl, rfl, ?_⟩
  unfold get_proposal
  rw [hget]
  dsimp only
  rw [if_pos ⟨hactive, hdl⟩]

/-- Witness for C5: voting on `stProp`'s active proposal at clock 11 (deadline
10) persists `Expired` and fails, and `get_proposal` reports `Expired` on the
unchanged state. -/
theorem claim_C5_witness :
    1 ∈ stProp.members ∧ mapGet stProp.proposals 1 = some pP ∧
    1 ∉ pP.voted_members ∧ pP.status = .Active ∧ pP.voting_deadline < 11 ∧
    vote stProp 1 1 0 11 =
      ({ stProp with
          proposals := mapInsert stProp.proposals 1
            { pP with status := .Expired } },
        .error .ProposalExpired) ∧
    get_proposal stProp 1 11 = .ok { pP with status := .Expired } := by
  have h := claim_C5 stProp 1 1 0 11 pP (by decide) (by decide) (by decide)
    (by decide) (by decide)
  exact ⟨by decide, by decide, by decide, by decide, by decide, h.1, h.2.2.2⟩

end SimpleDao

namespace SimpleDao

/-- Claim C6 counterexample: the claim says the sum of ledger balances equals
the stored total supply already immediately after construction, for every
non-empty member list.  `new([1,2,3], 1000, 10, 1)` yields balances
333 + 333 + 333 = 999 while `total_supply` is 1000. -/
theorem claim_C6_counterexample :
    ¬ ∀ (members : List H160) (ts vp mv : Nat) (st : DaoState),
        new members ts vp mv = some st →
        sumBalances st.member_tokens = st.total_supply := by
  intro h
  exact absurd (h [1, 2, 3] 1000 10 1 stC6 (by decide)) (by decide)

/-- Claim C6 (amended): at every reachable state the sum of ledger balances is
AT MOST the stored total supply (equality fails whenever the initial supply is
not divisible by the member count — the floor-division remainder is never
assigned), and the total supply never decreases: `distribute_tokens` only adds
to it and the other operations leave it unchanged. -/
theorem claim_C6 (st : DaoState) (h : Reachable st) :
    sumBalances st.member_tokens ≤ st.total_supply ∧
    (∀ r a, st.total_supply ≤ (distribute_tokens st r a).1.total_supply) ∧
    (∀ c n d ty o a now,
      (create_proposal st c n d ty o a now).1.total_supply = st.total_supply) ∧
    (∀ c pid opt now,
      (vote st c pid opt now).1.total_supply = st.total_supply) :=
  ⟨(reachable_WF st h).bal_le,
    fun r a => (distribute_state_fields st r a).2.2.1,
    fun c n d ty o a now => (create_state_fields st c n d ty o a now).2.1,
    fun c pid opt now => (vote_state_fields st c pid opt now).2.1⟩

/-- Witness for C6 (amended) at the reachable state `stInit`. -/
theorem claim_C6_witness :
    Reachable stInit ∧
    sumBalances stInit.member_tokens ≤ stInit.total_supply ∧
    stInit.total_supply ≤ (distribute_tokens stInit 1 7).1.total_supply :=
  ⟨stInit_reachable, (claim_C6 stInit stInit_reachable).1,
    (claim_C6 stInit stInit_reachable).2.1 1 7⟩

/-- Claim C7: for every non-empty member list and positive voting period,
construction succeeds and assigns each member exactly `total_supply / n`
tokens (floor division), so the sum of post-init balances is at most
`total_supply`; construction aborts on the empty member list. -/
theorem claim_C7 (members : List H160) (ts vp mv : Nat)
    (hne : members ≠ []) (hvp : 0 < vp) :
    (∃ st, new members ts vp mv = some st ∧
      (∀ m ∈ members, get_member_balance st m = ts / members.length) ∧
      sumBalances st.member_tokens ≤ ts) ∧
    new [] ts vp mv = none := by
  constructor
  · have hcond : ¬ (members.length = 0 ∨ vp = 0) := by
      rintro (h | h)
      · exact hne (List.length_eq_zero.mp h)
      · omega
    unfold new
    rw [if_neg hcond]
    refine ⟨_, rfl, ?_, ?_⟩
    · intro m hm
      unfold get_member_balance
      dsimp only
      rw [mapGet_foldl_insert_mem (ts / members.length) members [] m hm]
      rfl
    · dsimp only
      have hfold := sumBalances_foldl_insert_le (ts / members.length) members []
      have hzero : sumBalances ([] : List (Nat × Nat)) = 0 := by
        simp [sumBalances]
      rw [hzero, Nat.zero_add] at hfold
      calc sumBalances (members.foldl
            (fun m mem => mapInsert m mem (ts / members.length)) [])
          ≤ members.length * (ts / members.length) := hfold
        _ = ts / members.length * members.length := Nat.mul_comm _ _
        _ ≤ ts := Nat.div_mul_le_self ts members.length
  · unfold new
    simp

/-- Witness for C7 at the spec's example: three members and supply 1000 gives
each member `1000 / 3 = 333`, with 1 token unassigned. -/
theorem claim_C7_witness :
    ([1, 2, 3] : List H160) ≠ [] ∧ 0 < 10 ∧
    (∃ st, new [1, 2, 3] 1000 10 1 = some st ∧
      (∀ m ∈ ([1, 2, 3] : List H160),
        get_member_balance st m = 1000 / ([1, 2, 3] : List H160).length) ∧
      sumBalances st.member_tokens ≤ 1000) ∧
    new [] 1000 10 1 = none :=
  ⟨by decide, by decide,
    (claim_C7 [1, 2, 3] 1000 10 1 (by decide) (by decide)).1,
    (claim_C7 [1, 2, 3] 1000 10 1 (by decide) (by decide)).2⟩

end SimpleDao

namespace SimpleDao

/-- Claim C8: `create_proposal` with kind MoneyRequest fails with
`InvalidProposalType` unless exactly one option is given and an amount is
present; with kind MultipleChoice it fails if `options` is empty.  Every
failed creation returns the state unchanged (no id allocated, counter
untouched, nothing stored), and every successful creation returns the next
unused id and bumps the counter. -/
theorem claim_C8 (st : DaoState) (c : H160) (n d : String) (o : List String)
    (a : Option Balance) (now : Nat) :
    ((a = none ∨ o.length ≠ 1) →
      create_proposal st c n d .MoneyRequest o a now =
        (st, .error .InvalidProposalType)) ∧
    (o = [] →
      create_proposal st c n d .MultipleChoice o a now =
        (st, .error .InvalidProposalType)) ∧
    (∀ ty pid, (create_proposal st c n d ty o a now).2 = .ok pid →
      pid = st.next_proposal_id ∧
      (create_proposal st c n d ty o a now).1.next_proposal_id =
        st.next_proposal_id + 1 ∧
      (Reachable st → mapGet st.proposals pid = none)) := by
  refine ⟨?_, ?_, ?_⟩
  · rintro (h | h)
    · simp [create_proposal, h]
    · simp [create_proposal, h]
  · intro h
    subst h
    simp [create_proposal]
  · intro ty pid hok
    unfold create_proposal at hok ⊢
    dsimp only at hok ⊢
    split at hok
    · simp at hok
    · rename_i hcond
      rw [if_neg hcond]
      dsimp only at hok
      simp only [Except.ok.injEq] at hok
      subst hok
      exact ⟨rfl, rfl, fun hr => DaoWF_fresh st (reachable_WF st hr)⟩

/-- Witness for C8: on `stInit`, a MoneyRequest with two options fails with
`InvalidProposalType` and leaves the state unchanged, while a MultipleChoice
creation succeeds with id 1 = `next_proposal_id`, which is unused. -/
theorem claim_C8_witness :
    ((some 5 = none ∨ ([optA, optB] : List String).length ≠ 1) ∧
      create_proposal stInit 1 emptyName emptyName .MoneyRequest [optA, optB]
        (some 5) 0 = (stInit, .error .InvalidProposalType)) ∧
    ((create_proposal stInit 1 emptyName emptyName .MultipleChoice [optA, optB]
        none 0).2 = .ok 1 ∧
      1 = stInit.next_proposal_id ∧ Reachable stInit ∧
      mapGet stInit.proposals 1 = none) := by
  have h2 := (claim_C8 stInit 1 emptyName emptyName [optA, optB] none 0).2.2
    .MultipleChoice 1 (by rfl)
  exact ⟨⟨Or.inr (by decide),
      (claim_C8 stInit 1 emptyName emptyName [optA, optB] (some 5) 0).1
        (Or.inr (by decide))⟩,
    ⟨by rfl, h2.1, stInit_reachable, h2.2.2 stInit_reachable⟩⟩

/-- Claim C9: every operation preserves the proposal invariants
(`votes.length = options.length`, voters listed at most once, ids in
`[1, next_proposal_id)` and recorded in the proposal itself); a stored
proposal whose status has left `Active` is never modified by `vote`, and
`create_proposal`/`distribute_tokens` never touch stored proposals at all
(so non-Active statuses are terminal and ids are never reused); every
successful creation stores a proposal with status `Active`, all-zero votes,
empty voters and `deadline = now + voting_period`. -/
theorem claim_C9 (st : DaoState) (h : Reachable st) :
    (∀ id p, mapGet st.proposals id = some p →
      p.votes.length = p.options.length ∧ p.voted_members.Nodup ∧
      p.id = id ∧ 1 ≤ id ∧ id < st.next_proposal_id) ∧
    (∀ c pid opt now id p q, mapGet st.proposals id = some p →
      mapGet (vote st c pid opt now).1.proposals id = some q →
      p.status ≠ .Active → q = p) ∧
    (∀ c n d ty o a now id p, mapGet st.proposals id = some p →
      mapGet (create_proposal st c n d ty o a now).1.proposals id = some p) ∧
    (∀ r a, (distribute_tokens st r a).1.proposals = st.proposals) ∧
    (∀ c n d ty o a now pid,
      (create_proposal st c n d ty o a now).2 = .ok pid →
      mapGet (create_proposal st c n d ty o a now).1.proposals pid =
        some { id := pid, name := n, description := d, author := c,
               proposal_type := ty, options := o, amount := a,
               votes := List.replicate o.length 0, voted_members := [],
               status := .Active, created_at := now,
               voting_deadline := now + st.voting_period }) := by
  have hwf := reachable_WF st h
  refine ⟨?_, ?_, ?_, ?_, ?_⟩
  · intro id p hp
    obtain ⟨hpwf, hpid, h1, hlt⟩ := hwf.prop_wf id p hp
    exact ⟨hpwf.votes_len, hpwf.voters_nodup, hpid, h1, hlt⟩
  · intro c pid opt now id p q hp hq hna
    exact vote_preserves_nonactive st c pid opt now id p q hp hq hna
  · intro c n d ty o a now id p hp
    exact create_preserves_existing st c n d ty o a now id p hwf hp
  · intro r a
    exact (distribute_state_fields st r a).1
  · intro c n d ty o a now pid hok
    unfold create_proposal at hok ⊢
    dsimp only at hok ⊢
    split at hok
    · simp at hok
    · rename_i hcond
      rw [if_neg hcond]
      dsimp only at hok
      simp only [Except.ok.injEq] at hok
      subst hok
      exact mapGet_mapInsert_self st.proposals st.next_proposal_id _

/-- Witness for C9 at the reachable state `stProp` and its stored proposal. -/
theorem claim_C9_witness :
    Reachable stProp ∧ mapGet stProp.proposals 1 = some pP ∧
    pP.votes.length = pP.options.length ∧ pP.voted_members.Nodup ∧
    pP.id = 1 ∧ 1 ≤ 1 ∧ 1 < stProp.next_proposal_id := by
  have h := (claim_C9 stProp stProp_reachable).1 1 pP (by decide)
  exact ⟨stProp_reachable, by decide, h.1, h.2.1, h.2.2.1, h.2.2.2.1,
    h.2.2.2.2⟩

/-- Claim C10: for every reachable proposal, the sum of the per-option vote
counters equals the length of its `voted_members` list; that length is bounded
by the number of distinct members, and hence so is each individual vote
counter — so a `u32` counter cannot overflow through voting alone (the
membership list, fixed at construction, would have to enumerate at least
2^32 distinct accounts first). -/
theorem claim_C10 (st : DaoState) (h : Reachable st) (id : Nat) (p : Proposal)
    (hp : mapGet st.proposals id = some p) :
    p.votes.sum = p.voted_members.length ∧
    p.voted_members.length ≤ st.members.dedup.length ∧
    (∀ cnt ∈ p.votes, cnt ≤ st.members.dedup.length) := by
  have hpwf := ((reachable_WF st h).prop_wf id p hp).1
  have hsub : p.voted_members ⊆ st.members.dedup := fun v hv =>
    List.mem_dedup.mpr (hpwf.voters_members v hv)
  have hlen : p.voted_members.length ≤ st.members.dedup.length :=
    (hpwf.voters_nodup.subperm hsub).length_le
  refine ⟨hpwf.tally, hlen, fun cnt hcnt => ?_⟩
  have hle : cnt ≤ p.votes.sum := List.le_sum_of_mem hcnt
  have ht := hpwf.tally
  omega

/-- Witness for C10 at the reachable state `stVoted` and its stored proposal
(`votes = [1, 0]`, one voter, one distinct member). -/
theorem claim_C10_witness :
    Reachable stVoted ∧ mapGet stVoted.proposals 1 = some pV ∧
    pV.votes.sum = pV.voted_members.length ∧
    pV.voted_members.length ≤ stVoted.members.dedup.length ∧
    (∀ cnt ∈ pV.votes, cnt ≤ stVoted.members.dedup.length) := by
  have h := claim_C10 stVoted stVoted_reachable 1 pV (by decide)
  exact ⟨stVoted_reachable, by decide, h.1, h.2.1, h.2.2⟩

end SimpleDao
